import Mathlib

/-!
Verification development for the StoryEngine repository.

The engine is embedded shallowly:

* Python dictionaries become association lists (`setAssoc` is dict
  assignment: it updates the first matching key in place, or appends a
  fresh key at the end, exactly like insertion-ordered Python dicts).
* The node database is the inductive `Val` type of Python values that
  occur in a story database: strings, lists of path segments, callables
  and nested dicts.
* Callbacks stored inside data (node entry functions, choice functions,
  effect apply/expire hooks, puzzle success/failure hooks, item equip
  hooks) are modelled as sequences of `Cmd`, the closed set of Story
  mutator calls the specification attributes to node callbacks
  (health, inventory, achievements, flags, log/message output).
* Fallible code returns `Except`: a `.error` value models an uncaught
  Python exception propagating to the caller, while `.ok` models a
  normal return (including returned mappings that carry an "error" key).
* Machine integers are `Int` (Python ints are unbounded).
-/

/-- The closed command language for callbacks held inside engine data.
Each constructor is one of the mutating Story methods a stored callback
may invoke on the `Story` instance it receives. -/
inductive Cmd where
  | modifyHpC (amount : Int)
  | addItemC (slot name desc : String) (onEquip : List Cmd)
  | removeItemC (slot : String)
  | setFlagC (key : String) (value : Bool)
  | addAchievementC (name desc : String)
  | logC (message : String) (style : Option String)
  | printC (message : String) (style : Option String)

/-- An occupied inventory slot: Inventory.add_item stores
[item, description, function]. -/
structure Item where
  name : String
  description : String
  onEquip : List Cmd

/-- The subsystem state of a Story that stored callbacks can reach:
HealthSystem, Inventory, Achievements, flags, EventLog entries and the
message buffer fed by Story.print. -/
structure MutState where
  hp : Int
  inventory : List (String × Option Item)
  achievements : List (String × String)
  flags : List (String × Bool)
  logEntries : List (String × Option String)
  messages : List (String × Option String)

/-- Python dict assignment d[k] = v on an insertion-ordered dict:
replace the binding in place if the key exists, else append it. -/
def setAssoc {κ α : Type} [DecidableEq κ] : List (κ × α) → κ → α → List (κ × α)
  | [], k, v => [(k, v)]
  | p :: rest, k, v => if p.1 = k then (k, v) :: rest else p :: setAssoc rest k v

/-- Python del d[k]: drop the (unique) binding of k. -/
def removeAssoc {κ α : Type} [DecidableEq κ] : List (κ × α) → κ → List (κ × α)
  | [], _ => []
  | p :: rest, k => if p.1 = k then rest else p :: removeAssoc rest k

/-- Python dict lookup d.get(k): the value bound to the first matching key. -/
def lookupA {κ α : Type} [DecidableEq κ] (l : List (κ × α)) (k : κ) : Option α :=
  (l.find? (fun p => decide (p.1 = k))).map (fun p => p.2)

/-- HealthSystem.modify_hp: add and clamp at zero.  Both variants of the
source (max-based in core.py, add-then-floor in story_engine.py) compute
this same function. -/
def modify_hp (hp amount : Int) : Int := max 0 (hp + amount)

/-- A whole sequence of modify_hp calls from a given initial hp. -/
def runHp (init : Int) (ds : List Int) : Int := ds.foldl modify_hp init

/-- Story.print: append to the message buffer consumed by the UI. -/
def story_print (m : MutState) (msg : String) (style : Option String) : MutState :=
  { m with messages := m.messages ++ [(msg, style)] }

/-- EventLog.log: append the entry, then mirror it through Story.print. -/
def log_log (m : MutState) (msg : String) (style : Option String) : MutState :=
  story_print { m with logEntries := m.logEntries ++ [(msg, style)] } msg style

/-- The eleven fixed equipment slots established by Inventory's constructor. -/
def inventorySlots : List String :=
  ["Head", "Neck", "Ears", "Mouth", "Right hand", "Left hand", "Back",
   "Right leg", "Left leg", "Right leg bottom", "Left leg bottom"]

/-- A freshly constructed Inventory: every fixed slot empty. -/
def Inventory.init : List (String × Option Item) :=
  inventorySlots.map (fun s => (s, none))

/-- Inventory.add_item: `_items[slot] = [item, description, function]`.
Note this is a plain dict assignment: an unknown slot name creates a key. -/
def Inventory.add_item (inv : List (String × Option Item)) (slot name desc : String)
    (onEquip : List Cmd) : List (String × Option Item) :=
  setAssoc inv slot (some { name := name, description := desc, onEquip := onEquip })

/-- Inventory.remove_item: `_items[slot] = []` (also a plain assignment). -/
def Inventory.remove_item (inv : List (String × Option Item)) (slot : String) :
    List (String × Option Item) :=
  setAssoc inv slot none

/-- Inventory.get_items (core.py): only the occupied slots. -/
def Inventory.get_items (inv : List (String × Option Item)) : List (String × Item) :=
  inv.filterMap (fun p => p.2.map (fun it => (p.1, it)))

/-- Execute one stored-callback command against the Story subsystem state. -/
def execCmd (m : MutState) : Cmd → MutState
  | .modifyHpC a => { m with hp := modify_hp m.hp a }
  | .addItemC s n d f => { m with inventory := Inventory.add_item m.inventory s n d f }
  | .removeItemC s => { m with inventory := Inventory.remove_item m.inventory s }
  | .setFlagC k v => { m with flags := setAssoc m.flags k v }
  | .addAchievementC n d => { m with achievements := setAssoc m.achievements n d }
  | .logC msg st => log_log m msg st
  | .printC msg st => story_print m msg st

/-- Run a stored callback (a command sequence) on the subsystem state. -/
def runCmds (cs : List Cmd) (m : MutState) : MutState := cs.foldl execCmd m

/-- Run an optional callback; None means no callback was attached. -/
def runOpt (c : Option (List Cmd)) (m : MutState) : MutState :=
  match c with
  | some b => runCmds b m
  | none => m

/-- Puzzle: question, options, stored correct index, optional hooks. -/
structure Puzzle where
  question : String
  options : List String
  answerIndex : Int
  onSuccess : Option (List Cmd)
  onFail : Option (List Cmd)

/-- Puzzle.attempt: compare the chosen index with the stored one, run the
matching hook, write the matching log entry, return the boolean.  The
puzzle itself is not modified.  MessageType.INFO is modelled by its
value "info". -/
def Puzzle.attempt (p : Puzzle) (m : MutState) (choiceIndex : Int) : Bool × MutState :=
  if choiceIndex = p.answerIndex then
    (true, log_log (runOpt p.onSuccess m) ("Puzzle solved: " ++ p.question) (some ("info")))
  else
    (false, log_log (runOpt p.onFail m) ("Puzzle failed: " ++ p.question) (some ("info")))

/-- Python values that occur inside a story database: display strings,
path lists (next_path values), callables, and nested node dicts.
A dict-valued next_path is modelled as a fault (Python would iterate
its keys); no verified property exercises that corner. -/
inductive Val where
  | vStr (s : String)
  | vList (xs : List String)
  | vFun (body : List Cmd)
  | vDict (entries : List (String × Val))

/-- The two exception classes subscripting can raise: KeyError (a dict
misses the key, caught by Story._get_node) and TypeError (the value is
not subscriptable by a string, never caught in the source). -/
inductive LookupErr where
  | keyError
  | typeError

/-- Membership of a key in a dict value. -/
def hasKey (es : List (String × Val)) (k : String) : Bool := (lookupA es k).isSome

/-- Python subscription v[k] with a string key. -/
def getIndex : Val → String → Except LookupErr Val
  | .vDict es, k =>
    match lookupA es k with
    | some v => .ok v
    | none => .error .keyError
  | _, _ => .error .typeError

/-- Walk a value along a path, one segment at a time, as the
`for step in path: node = node[step]` loops do. -/
def walkVal : Val → List String → Except LookupErr Val
  | v, [] => .ok v
  | v, s :: rest =>
    match getIndex v s with
    | .ok v2 => walkVal v2 rest
    | .error e => .error e

/-- Python truthiness test `not node` for the value kinds of `Val`. -/
def valFalsy : Val → Bool
  | .vStr s => s.isEmpty
  | .vList xs => xs.isEmpty
  | .vFun _ => false
  | .vDict es => es.isEmpty

/-- Bool-valued infix test on character lists (Python `sub in str`). -/
def infixOfB (pat : List Char) : List Char → Bool
  | [] => pat.isEmpty
  | c :: rest => pat.isPrefixOf (c :: rest) || infixOfB pat rest

/-- Python substring containment `pat in s`. -/
def substrB (pat s : String) : Bool := infixOfB pat.data s.data

/-- The pattern `if "function" in node and callable(node["function"])`:
returns the callback when the node is a dict binding "function" to a
callable, nothing when the check fails, and a fault when the check
itself raises (TypeError on indexing a string or list, or testing
membership in a non-container). -/
def getEntryFn : Val → Except Unit (Option (List Cmd))
  | .vDict es =>
    .ok (match lookupA es ("function") with
         | some (.vFun b) => some b
         | _ => none)
  | .vStr s => if substrB ("function") s then .error () else .ok none
  | .vList xs => if xs.contains ("function") then .error () else .ok none
  | .vFun _ => .error ()

/-- Python membership `k in v` (substring test on strings, element test
on lists, key test on dicts, TypeError on callables). -/
def valContains : Val → String → Except Unit Bool
  | .vDict es, k => .ok (hasKey es k)
  | .vStr s, k => .ok (substrB k s)
  | .vList xs, k => .ok (xs.contains k)
  | .vFun _, _ => .error ()

/-- Python `v.get(k, default)`: only dicts have .get (AttributeError
otherwise, modelled as a fault). -/
def dictGetD : Val → String → Val → Except Unit Val
  | .vDict es, k, d => .ok ((lookupA es k).getD d)
  | _, _, _ => .error ()

/-- Python `v.get(k)` with the None default. -/
def dictGet : Val → String → Except Unit (Option Val)
  | .vDict es, k => .ok (lookupA es k)
  | _, _ => .error ()

/-- An explicit error result: a mapping with an "error" key. -/
def errResult (msg : String) : Val := .vDict [(("error"), .vStr msg)]

/-- Approximate rendering of a value inside an f-string; no verified
property depends on the text produced for non-string values. -/
def pyStr : Val → String
  | .vStr s => s
  | .vList xs => "[" ++ String.intercalate (", ") xs ++ "]"
  | .vFun _ => "<function>"
  | .vDict _ => "<dict>"

/-- A timed effect: name, remaining duration, apply/expire callbacks. -/
structure Effect where
  name : String
  duration : Int
  applyFn : List Cmd
  expireFn : Option (List Cmd)

/-- The Story orchestrator state the verified properties touch: the node
database (read-only input), the callback-reachable subsystem state, the
path cursor, the StoryMap of visited nodes and the active effects.
The UI/threading fields (tick thread handle, tick interval, auto-save
target, current puzzle, registered NPC table) carry no verified
behaviour of their own and are kept outside this record. -/
structure Story where
  database : Val
  mstate : MutState
  path : List String
  storyMap : List (List String × Val)
  effects : List (String × Effect)

/-- Story._get_node: walk the database along the current path; register
the resolved node in the StoryMap and return it; on a KeyError return
the empty dict without registering; a TypeError propagates. -/
def Story.get_node (st : Story) : Except Unit (Val × Story) :=
  match walkVal st.database st.path with
  | .ok v => .ok (v, { st with storyMap := setAssoc st.storyMap st.path v })
  | .error .keyError => .ok (.vDict [], st)
  | .error .typeError => .error ()

/-- Run an optional entry callback against a Story. -/
def applyFnOpt (fn : Option (List Cmd)) (st : Story) : Story :=
  match fn with
  | some b => { st with mstate := runCmds b st.mstate }
  | none => st

/-- Story.step: resolve the current node ("Неверный путь." on a falsy
resolution), run the node's entry function, then, when an answer is
supplied, look it up in the node's answers ("Неверный выбор." when
absent), run the choice's function, replace the path when the choice
declares next_path, and resolve again. -/
def Story.step (st : Story) (answer : Option String) : Except Unit (Val × Story) :=
  match Story.get_node st with
  | .error e => .error e
  | .ok (node, st1) =>
    if valFalsy node then .ok (errResult ("Неверный путь."), st1)
    else
      match getEntryFn node with
      | .error e => .error e
      | .ok fn =>
        let st2 := applyFnOpt fn st1
        match answer with
        | none => Story.get_node st2
        | some a =>
          match dictGetD node ("answers") (.vDict []) with
          | .error e => .error e
          | .ok answers =>
            match valContains answers a with
            | .error e => .error e
            | .ok mem =>
              if mem = false then .ok (errResult ("Неверный выбор."), st2)
              else
                match getIndex answers a with
                | .error _ => .error ()
                | .ok choiceData =>
                  match getEntryFn choiceData with
                  | .error e => .error e
                  | .ok cfn =>
                    let st3 := applyFnOpt cfn st2
                    match dictGet choiceData ("next_path") with
                    | .error e => .error e
                    | .ok np =>
                      match np with
                      | none => Story.get_node st3
                      | some (.vList xs) => Story.get_node { st3 with path := xs }
                      | some _ => .error ()

/-- An NPC: a name, its private dialogue tree, and its own path cursor. -/
structure NPC where
  name : String
  dialogue : Val
  dialoguePath : List String

/-- NPC._get_node walks the dialogue tree along the cursor with no
exception handler, so both KeyError and TypeError propagate.  NPC.talk
logs the node text, then: with no (or empty) choice returns the node;
with a choice found among the node's responses replaces the cursor by
the response's next path and resolves again (again unprotected); with
an unknown choice returns the error mapping "Invalid choice.".
The state reached before an uncaught exception is discarded by the
`Except` model; no verified property reads it. -/
def NPC.talk (npc : NPC) (m : MutState) (choice : Option String) :
    Except Unit (Val × NPC × MutState) :=
  match walkVal npc.dialogue npc.dialoguePath with
  | .error _ => .error ()
  | .ok node =>
    match dictGetD node ("text") (.vStr "") with
    | .error e => .error e
    | .ok textVal =>
      let m1 := log_log m ("Talking to " ++ npc.name ++ ": " ++ pyStr textVal) (some ("info"))
      match choice with
      | none => .ok (node, npc, m1)
      | some c =>
        if c.isEmpty then .ok (node, npc, m1)
        else
          match dictGetD node ("responses") (.vDict []) with
          | .error e => .error e
          | .ok answers =>
            match valContains answers c with
            | .error e => .error e
            | .ok mem =>
              if mem then
                match getIndex answers c with
                | .error _ => .error ()
                | .ok resp =>
                  match dictGet resp ("next") with
                  | .error e => .error e
                  | .ok np =>
                    match np with
                    | none =>
                      let npc2 := { npc with dialoguePath := [] }
                      match walkVal npc2.dialogue npc2.dialoguePath with
                      | .error _ => .error ()
                      | .ok node2 => .ok (node2, npc2, m1)
                    | some (.vList xs) =>
                      let npc2 := { npc with dialoguePath := xs }
                      match walkVal npc2.dialogue npc2.dialoguePath with
                      | .error _ => .error ()
                      | .ok node2 => .ok (node2, npc2, m1)
                    | some _ => .error ()
              else .ok (errResult ("Invalid choice."), npc, m1)

/-- Decrement of one effect's remaining duration. -/
def decEffect (e : Effect) : Effect := { e with duration := e.duration - 1 }

/-- Story.apply_effect: key the effect by name into the active set and
invoke its apply callback synchronously. -/
def Story.apply_effect (st : Story) (e : Effect) : Story :=
  { st with effects := setAssoc st.effects e.name e,
            mstate := runCmds e.applyFn st.mstate }

/-- Story._update_effects: decrement every active effect's remaining
duration; for each effect that thereby reaches zero or below, invoke its
expire callback (when present) in iteration order and collect its name;
finally delete the collected names from the active set. -/
def Story.update_effects (st : Story) : Story :=
  let dec := st.effects.map (fun p => (p.1, decEffect p.2))
  let m2 := dec.foldl (fun m p => if p.2.duration ≤ 0 then runOpt p.2.expireFn m else m) st.mstate
  let expired := (dec.filter (fun p => decide (p.2.duration ≤ 0))).map (fun p => p.1)
  let effects2 := expired.foldl (fun es n => removeAssoc es n) dec
  { st with mstate := m2, effects := effects2 }

/-- The concatenation of the expire callbacks that one aging pass over
the given active set will run, in iteration order. -/
def expiredCmds (effects : List (String × Effect)) : List Cmd :=
  (effects.filterMap
    (fun p => if p.2.duration - 1 ≤ 0 then some ((p.2.expireFn).getD []) else none)).flatten

/-- The failure modes of reading the persisted state back: the resource
is missing, or its content does not parse. -/
inductive LoadErr where
  | fileNotFound
  | malformed

/-- The logical schema of the persisted state (core.py variant).  Every
field is optional: a key can be absent from a loadable state. -/
structure CoreSaved where
  hp : Option Int
  inventory : Option (List (String × String × String))
  achievements : Option (List (String × String))
  flags : Option (List (String × Bool))
  path : Option (List String)

/-- The inventory rows save_state writes: slot, item name, description
for every occupied slot. -/
def savedItems (inv : List (String × Option Item)) : List (String × String × String) :=
  (Inventory.get_items inv).map (fun p => (p.1, p.2.name, p.2.description))

/-- Story.save_state (core.py): hp, name and description of every
occupied inventory slot, achievements, flags and path. -/
def Story.save_state (st : Story) : CoreSaved :=
  { hp := some st.mstate.hp,
    inventory := some (savedItems st.mstate.inventory),
    achievements := some st.mstate.achievements,
    flags := some st.mstate.flags,
    path := some st.path }

/-- The body of Story.load_state (core.py) once the resource was read:
rebuild HealthSystem, Achievements, Inventory (items re-added with a
no-op equip callback), flags and path, with 0 / empty defaults for
absent keys. -/
def loadFromSaved (s : CoreSaved) (st : Story) : Story :=
  { st with
    mstate :=
      { hp := (s.hp).getD 0,
        achievements := ((s.achievements).getD []).foldl
          (fun a p => setAssoc a p.1 p.2) [],
        inventory := ((s.inventory).getD []).foldl
          (fun inv p => Inventory.add_item inv p.1 p.2.1 p.2.2 []) Inventory.init,
        flags := (s.flags).getD [],
        logEntries := st.mstate.logEntries,
        messages := st.mstate.messages },
    path := (s.path).getD [] }

/-- Story.load_state (core.py): the read of the resource is not guarded
by any handler, so a read failure propagates to the caller. -/
def Story.load_state (res : Except LoadErr CoreSaved) (st : Story) :
    Except LoadErr Story :=
  match res with
  | .error e => .error e
  | .ok s => .ok (loadFromSaved s st)

/-- The state of the UI-coupled Story variant (story_engine.py) that its
load_state touches: health, inventory, achievements, message buffer. -/
structure StorySE where
  hp : Int
  inventory : List (String × Option Item)
  achievements : List (String × String)
  messages : List (String × Option String)

/-- The persisted schema the UI variant reads: no flags, no path. -/
structure SESaved where
  hp : Option Int
  achievements : Option (List (String × String))
  inventory : Option (List (String × String × String))

/-- The except-branch of the UI variant's load_state: report the failure
through self.print (the exception text is elided). -/
def sePrintErr (st : StorySE) : StorySE :=
  { st with messages := st.messages ++ [(("Ошибка загрузки состояния"), some ("bold red"))] }

/-- load_state (story_engine.py): the whole body sits in a try/except,
and the state keys are read with plain subscription, so a missing key
aborts the load partway (after the mutations already made) and is
reported through the message buffer; nothing is defaulted. -/
def StorySE.load_state (res : Except LoadErr SESaved) (st : StorySE) : StorySE :=
  match res with
  | .error _ => sePrintErr st
  | .ok s =>
    match s.hp with
    | none => sePrintErr st
    | some h =>
      let st1 : StorySE := { st with hp := h, achievements := [] }
      match s.achievements with
      | none => sePrintErr st1
      | some ach =>
        let st2 : StorySE :=
          { st1 with achievements := ach.foldl (fun a p => setAssoc a p.1 p.2) [],
                     inventory := Inventory.init }
        match s.inventory with
        | none => sePrintErr st2
        | some invL =>
          { st2 with inventory :=
              (invL.foldl (fun inv p => Inventory.add_item inv p.1 p.2.1 p.2.2 [])
                Inventory.init) }

/-- The keys of an association list, in order. -/
def invKeys {α : Type} (l : List (String × α)) : List String := l.map (fun p => p.1)

/-- A Python dict never binds a key twice; association lists standing
for dicts satisfy this invariant. -/
def keysNodup {κ α : Type} (l : List (κ × α)) : Prop := (l.map (fun p => p.1)).Nodup

/-- The answer is not a key of the node's answers mapping (the mapping
being absent counts as empty, as `node.get("answers", {})` does). -/
def answersExclude (es : List (String × Val)) (a : String) : Bool :=
  match lookupA es ("answers") with
  | none => true
  | some (.vDict aes) => !(hasKey aes a)
  | some _ => false

/-- Whether a returned value is an explicit error result. -/
def isErrResult : Val → Bool
  | .vDict es => hasKey es ("error")
  | _ => false

/-- The (name, description) view of one inventory slot, when occupied. -/
def itemView (inv : List (String × Option Item)) (slot : String) :
    Option (String × String) :=
  match lookupA inv slot with
  | some (some it) => some (it.name, it.description)
  | _ => none

/-- One Inventory mutation, for quantifying over operation sequences. -/
inductive InvOp where
  | addOp (slot name desc : String) (onEquip : List Cmd)
  | removeOp (slot : String)

/-- The slot argument an inventory operation names. -/
def InvOp.slotOf : InvOp → String
  | .addOp s _ _ _ => s
  | .removeOp s => s

/-- Apply one inventory operation. -/
def applyInvOp (inv : List (String × Option Item)) : InvOp → List (String × Option Item)
  | .addOp s n d f => Inventory.add_item inv s n d f
  | .removeOp s => Inventory.remove_item inv s

/-- Apply a sequence of inventory operations left to right. -/
def runInvOps (ops : List InvOp) (inv : List (String × Option Item)) :
    List (String × Option Item) :=
  ops.foldl applyInvOp inv

/-- A persisted state with every key absent. -/
def emptySaved : CoreSaved :=
  { hp := none, inventory := none, achievements := none, flags := none, path := none }

/-- The subsystem state of a freshly built Story (HealthSystem defaults
to 10 hit points; everything else empty). -/
def mutEmpty : MutState :=
  { hp := 10, inventory := Inventory.init, achievements := [], flags := [],
    logEntries := [], messages := [] }

/-- The two-node database of the specification's walkthrough scenario. -/
def dbEx : Val := .vDict
  [(("start"), .vDict
      [(("condition"), .vStr ("Forest")),
       (("answers"), .vDict
          [(("go north"), .vDict [(("next_path"), .vList [("cave")])])])]),
   (("cave"), .vDict [(("condition"), .vStr ("Dark cave"))])]

/-- The entries of the resolved start node of `dbEx`. -/
def esStart : List (String × Val) :=
  [(("condition"), .vStr ("Forest")),
   (("answers"), .vDict
      [(("go north"), .vDict [(("next_path"), .vList [("cave")])])])]

/-- A Story positioned at the start node of the scenario database. -/
def stC1 : Story :=
  { database := dbEx, mstate := mutEmpty, path := [("start")],
    storyMap := [], effects := [] }

/-- The same Story with its cursor on a path whose segment is absent. -/
def stC2 : Story :=
  { database := dbEx, mstate := mutEmpty, path := [("nowhere")],
    storyMap := [], effects := [] }

/-- Entries of a node carrying an entry function and one answer. -/
def esTrap : List (String × Val) :=
  [(("function"), .vFun [Cmd.modifyHpC (-3)]),
   (("answers"), .vDict [(("flee"), .vDict [])])]

/-- A Story whose current node declares an entry function. -/
def stC10 : Story :=
  { database := .vDict [(("trap"), .vDict esTrap)], mstate := mutEmpty,
    path := [("trap")], storyMap := [], effects := [] }

/-- A Story with accumulated state, for the save/load round trip. -/
def stC3 : Story :=
  { database := .vDict [],
    mstate :=
      { hp := 7,
        inventory := Inventory.add_item Inventory.init ("Head") ("Torch") ("Bright")
          [Cmd.setFlagC ("lit") true],
        achievements := [(("First Steps"), ("Left the village"))],
        flags := [(("brave"), true)],
        logEntries := [], messages := [] },
    path := [("cave")], storyMap := [], effects := [] }

/-- A Story with no active effects. -/
def stC5 : Story :=
  { database := .vDict [], mstate := mutEmpty, path := [], storyMap := [], effects := [] }

/-- An effect of duration 1 with apply and expire callbacks. -/
def effEx : Effect :=
  { name := ("poison"), duration := 1, applyFn := [Cmd.modifyHpC (-2)],
    expireFn := some [Cmd.logC ("poison wore off") none] }

/-- An NPC whose cursor names a segment absent from its dialogue tree. -/
def npcEx : NPC :=
  { name := ("Guide"), dialogue := .vDict [], dialoguePath := [("hall")] }

/-- Another NPC with a dangling cursor, two segments deep. -/
def npcEx2 : NPC :=
  { name := ("Bob"), dialogue := .vDict [(("text"), .vStr ("hi"))],
    dialoguePath := [("a"), ("b")] }

/-- A UI-variant Story in its initial state. -/
def seEx : StorySE :=
  { hp := 10, inventory := Inventory.init, achievements := [], messages := [] }

/-- A loadable persisted state missing its hp key (UI-variant schema). -/
def seSavedNoHp : SESaved :=
  { hp := none, achievements := some [], inventory := some [] }

/-- A puzzle with hooks on both outcomes. -/
def pEx : Puzzle :=
  { question := ("Riddle"), options := [("a"), ("b")], answerIndex := 0,
    onSuccess := some [Cmd.addAchievementC ("Solver") ("Solved it")],
    onFail := some [Cmd.modifyHpC (-1)] }

/-- The callback the entry-function check extracts from a dict node:
the value bound to "function" when that value is callable. -/
def entryFnOf (es : List (String × Val)) : Option (List Cmd) :=
  match lookupA es ("function") with
  | some (.vFun b) => some b
  | _ => none

/-- Lookup of the head key of an association list. -/
theorem lookupA_cons_self {κ α : Type} [DecidableEq κ]
    (l : List (κ × α)) (k : κ) (v : α) : lookupA ((k, v) :: l) k = some v := by
  simp [lookupA, List.find?]

/-- Lookup where the head carries its key. -/
theorem lookupA_cons_eq {κ α : Type} [DecidableEq κ]
    (l : List (κ × α)) (p : κ × α) (k : κ) (h : p.1 = k) :
    lookupA (p :: l) k = some p.2 := by
  simp [lookupA, List.find?, h]

/-- Lookup skips a head with a different key. -/
theorem lookupA_cons_ne {κ α : Type} [DecidableEq κ]
    (l : List (κ × α)) (p : κ × α) (k : κ) (h : p.1 ≠ k) :
    lookupA (p :: l) k = lookupA l k := by
  simp [lookupA, List.find?, h]

/-- Dict assignment at a matching head. -/
theorem setAssoc_cons_eq {κ α : Type} [DecidableEq κ]
    (rest : List (κ × α)) (p : κ × α) (k : κ) (v : α) (h : p.1 = k) :
    setAssoc (p :: rest) k v = (k, v) :: rest := by
  simp [setAssoc, h]

/-- Dict assignment past a non-matching head. -/
theorem setAssoc_cons_ne {κ α : Type} [DecidableEq κ]
    (rest : List (κ × α)) (p : κ × α) (k : κ) (v : α) (h : p.1 ≠ k) :
    setAssoc (p :: rest) k v = p :: setAssoc rest k v := by
  simp [setAssoc, h]

/-- Looking up the key written by a dict assignment yields the value. -/
theorem lookupA_setAssoc_self {κ α : Type} [DecidableEq κ]
    (l : List (κ × α)) (k : κ) (v : α) : lookupA (setAssoc l k v) k = some v := by
  induction l with
  | nil => simp [setAssoc, lookupA, List.find?]
  | cons p rest ih =>
    by_cases h : p.1 = k
    · rw [setAssoc_cons_eq rest p k v h, lookupA_cons_self]
    · rw [setAssoc_cons_ne rest p k v h, lookupA_cons_ne _ p k h]
      exact ih

/-- A dict assignment leaves other keys unchanged. -/
theorem lookupA_setAssoc_ne {κ α : Type} [DecidableEq κ]
    (l : List (κ × α)) (k k' : κ) (v : α) (h : k' ≠ k) :
    lookupA (setAssoc l k v) k' = lookupA l k' := by
  induction l with
  | nil =>
    show lookupA [(k, v)] k' = lookupA ([] : List (κ × α)) k'
    rw [lookupA_cons_ne _ (k, v) k' (Ne.symm h)]
  | cons p rest ih =>
    by_cases hp : p.1 = k
    · rw [setAssoc_cons_eq rest p k v hp, lookupA_cons_ne _ (k, v) k' (Ne.symm h),
          lookupA_cons_ne _ p k' (by rw [hp]; exact Ne.symm h)]
    · rw [setAssoc_cons_ne rest p k v hp]
      by_cases hp' : p.1 = k'
      · rw [lookupA_cons_eq _ p k' hp', lookupA_cons_eq _ p k' hp']
      · rw [lookupA_cons_ne _ p k' hp', lookupA_cons_ne _ p k' hp']
        exact ih

/-- A key absent from the key list is absent from the dict. -/
theorem lookupA_eq_none {κ α : Type} [DecidableEq κ]
    (l : List (κ × α)) (k : κ) (h : k ∉ l.map (fun p => p.1)) :
    lookupA l k = none := by
  induction l with
  | nil => rfl
  | cons p rest ih =>
    have hp : p.1 ≠ k := by
      intro hc
      exact h (by simp [hc])
    have hr : k ∉ rest.map (fun p => p.1) := by
      intro hc
      exact h (by simp [hc])
    rw [lookupA_cons_ne _ p k hp]
    exact ih hr

/-- Assigning an existing key keeps the key list. -/
theorem map_fst_setAssoc_mem {κ α : Type} [DecidableEq κ]
    (l : List (κ × α)) (k : κ) (v : α) (h : k ∈ l.map (fun p => p.1)) :
    (setAssoc l k v).map (fun p => p.1) = l.map (fun p => p.1) := by
  induction l with
  | nil => cases h
  | cons p rest ih =>
    by_cases hp : p.1 = k
    · rw [setAssoc_cons_eq rest p k v hp]
      simp [hp]
    · have h2 : k ∈ p.1 :: rest.map (fun q => q.1) := by
        simpa only [List.map_cons] using h
      have hk : k ∈ rest.map (fun q => q.1) := by
        rcases List.mem_cons.mp h2 with h1 | h1
        · exact absurd h1.symm hp
        · exact h1
      rw [setAssoc_cons_ne rest p k v hp]
      simp [ih hk]

/-- Assigning a fresh key appends it. -/
theorem setAssoc_of_not_mem {κ α : Type} [DecidableEq κ]
    (l : List (κ × α)) (k : κ) (v : α) (h : k ∉ l.map (fun p => p.1)) :
    setAssoc l k v = l ++ [(k, v)] := by
  induction l with
  | nil => rfl
  | cons p rest ih =>
    have hp : p.1 ≠ k := by
      intro hc
      exact h (by simp [hc])
    have hr : k ∉ rest.map (fun q => q.1) := by
      intro hc
      exact h (by simp [hc])
    rw [setAssoc_cons_ne rest p k v hp, ih hr]
    rfl

/-- Running a concatenation of commands runs the two parts in order. -/
theorem runCmds_append (a b : List Cmd) (m : MutState) :
    runCmds (a ++ b) m = runCmds b (runCmds a m) := by
  simp [runCmds, List.foldl_append]

/-- Running an optional callback is running its command list, an absent
callback being the empty list. -/
theorem runOpt_eq_getD (c : Option (List Cmd)) (m : MutState) :
    runOpt c m = runCmds (c.getD []) m := by
  cases c <;> rfl

/-- Unfolding one modify_hp call at the head of a sequence. -/
theorem runHp_cons (init d : Int) (ds : List Int) :
    runHp init (d :: ds) = runHp (modify_hp init d) ds := rfl

/-- Starting non-negative, hp stays non-negative through any sequence. -/
theorem runHp_nonneg (init : Int) (ds : List Int) (h : 0 ≤ init) :
    0 ≤ runHp init ds := by
  induction ds generalizing init with
  | nil => exact h
  | cons d rest ih =>
    rw [runHp_cons]
    exact ih (modify_hp init d) (le_max_left 0 (init + d))

/-- Clamping only ever raises hp above the raw running total. -/
theorem runHp_ge (init : Int) (ds : List Int) : init + ds.sum ≤ runHp init ds := by
  induction ds generalizing init with
  | nil => simp [runHp]
  | cons d rest ih =>
    rw [runHp_cons]
    have h1 : init + (d :: rest).sum = (init + d) + rest.sum := by
      simp [List.sum_cons]
      ring
    rw [h1]
    have h2 : (init + d) + rest.sum ≤ modify_hp init d + rest.sum :=
      add_le_add_right (le_max_right 0 (init + d)) rest.sum
    exact le_trans h2 (ih (modify_hp init d))

/-- When no prefix of the sequence drives the running total negative,
no clamping fires and hp is exactly the raw total. -/
theorem runHp_exact (init : Int) (ds : List Int)
    (h : ∀ k, k ≤ ds.length → 0 ≤ init + (ds.take k).sum) :
    runHp init ds = init + ds.sum := by
  induction ds generalizing init with
  | nil => simp [runHp]
  | cons d rest ih =>
    have h1 : 0 ≤ init + d := by
      have h2 := h 1 (by simp)
      simpa using h2
    have h0 : modify_hp init d = init + d := max_eq_right h1
    rw [runHp_cons, h0]
    have h3 : ∀ k, k ≤ rest.length → 0 ≤ (init + d) + (rest.take k).sum := by
      intro k hk
      have h4 := h (k + 1) (by simpa using Nat.succ_le_succ hk)
      simpa [List.take_succ_cons, add_assoc] using h4
    rw [ih (init + d) h3]
    simp [List.sum_cons]
    ring

/-- C4 counterexample: the claim says the hp resulting from a sequence
of modifyHp calls equals max(0, sum of the deltas); from the default
initial hp of 10, a single call with delta 1 yields 11, not max(0, 1). -/
theorem modify_hp_sum_cex : runHp 10 [1] ≠ max 0 (List.sum [1]) := by decide

/-- C4 (amended): hp is clamped at zero after each modifyHp call, not
once at the end: from a non-negative initial hp, hp is non-negative
after every prefix of the sequence, the final hp is at least
max(0, initial + sum of the deltas), and it equals initial + sum
whenever no prefix of the running total goes negative. -/
theorem modify_hp_clamp_behavior (init : Int) (ds : List Int) (h : 0 ≤ init) :
    (∀ k, 0 ≤ runHp init (ds.take k)) ∧
    max 0 (init + ds.sum) ≤ runHp init ds ∧
    ((∀ k, k ≤ ds.length → 0 ≤ init + (ds.take k).sum) →
      runHp init ds = init + ds.sum) := by
  refine ⟨fun k => runHp_nonneg init (ds.take k) h, ?_, fun hp => runHp_exact init ds hp⟩
  exact max_le (runHp_nonneg init ds h) (runHp_ge init ds)

/-- C4 witness: a concrete clamp-free run of two modifyHp calls. -/
theorem modify_hp_clamp_behavior_witness : runHp 10 [(-3), 5] = 12 := by
  have h := (modify_hp_clamp_behavior 10 [(-3), 5] (by decide)).2.2 (by decide)
  rw [h]
  decide

/-- An empty dict has no keys. -/
theorem hasKey_nil (k : String) : hasKey [] k = false := rfl

/-- The entry-function check on a dict node never raises. -/
theorem getEntryFn_dict (es : List (String × Val)) :
    getEntryFn (.vDict es) = .ok (entryFnOf es) := rfl

/-- Defaulted get on a dict value. -/
theorem dictGetD_dict (es : List (String × Val)) (k : String) (d : Val) :
    dictGetD (.vDict es) k d = .ok ((lookupA es k).getD d) := rfl

/-- Membership test on a dict value. -/
theorem valContains_dict (es : List (String × Val)) (k : String) :
    valContains (.vDict es) k = .ok (hasKey es k) := rfl

/-- Running an entry callback never moves the path cursor: callbacks
reach only the subsystem state. -/
theorem applyFnOpt_path (fn : Option (List Cmd)) (st : Story) :
    (applyFnOpt fn st).path = st.path := by
  cases fn <;> rfl

/-- C2: for every database and every path, if resolving the current path
fails because some segment is absent while walking the nested node
mapping, Story.step returns the explicit error result to the caller —
it does not raise — and the Story, its path cursor included, is left
exactly as it was. -/
theorem step_resolution_failure (st : Story) (a : Option String)
    (h : walkVal st.database st.path = .error .keyError) :
    Story.step st a = .ok (errResult ("Неверный путь."), st) := by
  simp [Story.step, Story.get_node, h, valFalsy]

/-- C2 witness: stepping with the cursor on an absent segment of the
scenario database returns the error result and preserves the state. -/
theorem step_resolution_failure_witness :
    Story.step stC2 none = .ok (errResult ("Неверный путь."), stC2) :=
  step_resolution_failure stC2 none rfl

/-- C1: for every database, every current path resolving to a node
mapping, and every answer string that is not a key of that node's
answers mapping, Story.step returns an explicit error result (a mapping
with an "error" key) and leaves the path cursor unchanged. -/
theorem step_invalid_choice_error (st : Story) (a : String) (es : List (String × Val))
    (hres : walkVal st.database st.path = .ok (.vDict es))
    (hans : answersExclude es a = true) :
    ∃ msg st', Story.step st (some a) = .ok (errResult msg, st') ∧ st'.path = st.path := by
  have hget : Story.get_node st
      = .ok (.vDict es, { st with storyMap := setAssoc st.storyMap st.path (.vDict es) }) := by
    simp [Story.get_node, hres]
  by_cases he : es.isEmpty
  · refine ⟨("Неверный путь."),
      { st with storyMap := setAssoc st.storyMap st.path (.vDict es) }, ?_, rfl⟩
    simp [Story.step, hget, valFalsy, he]
  · refine ⟨("Неверный выбор."),
      applyFnOpt (entryFnOf es)
        { st with storyMap := setAssoc st.storyMap st.path (.vDict es) },
      ?_, applyFnOpt_path _ _⟩
    unfold answersExclude at hans
    rcases hl : lookupA es ("answers") with _ | av
    · rw [hl] at hans
      simp [Story.step, hget, valFalsy, he, getEntryFn_dict, dictGetD_dict, hl,
            valContains_dict, hasKey_nil]
    · rw [hl] at hans
      rcases av with s | xs | b | aes
      · simp at hans
      · simp at hans
      · simp at hans
      · simp only [Bool.not_eq_true'] at hans
        simp [Story.step, hget, valFalsy, he, getEntryFn_dict, dictGetD_dict, hl,
              valContains_dict, hans]

/-- C1 witness: the scenario's invalid choice "go south" at the start
node yields an error result and keeps the cursor at the start node. -/
theorem step_invalid_choice_error_witness :
    (Story.step stC1 (some ("go south"))).map (fun r => r.2.path) = .ok [("start")] := by
  obtain ⟨msg, st', h1, h2⟩ := step_invalid_choice_error stC1 ("go south") esStart rfl rfl
  rw [h1]
  simpa [Except.map] using h2

/-- C10: when Story.step is called with an answer absent from the
current node's answers, the node's entry function has already run by the
time the invalid-choice error result is returned: the resulting state
carries exactly the entry callback's effects on the subsystem state
(plus the StoryMap registration of the resolved node), while the path
cursor is unchanged. -/
theorem step_entry_fn_runs_on_invalid_choice (st : Story) (a : String)
    (es : List (String × Val)) (b : List Cmd)
    (hres : walkVal st.database st.path = .ok (.vDict es))
    (hne : es.isEmpty = false)
    (hfn : lookupA es ("function") = some (.vFun b))
    (hans : answersExclude es a = true) :
    Story.step st (some a)
      = .ok (errResult ("Неверный выбор."),
             { st with storyMap := setAssoc st.storyMap st.path (.vDict es),
                       mstate := runCmds b st.mstate }) := by
  have hget : Story.get_node st
      = .ok (.vDict es, { st with storyMap := setAssoc st.storyMap st.path (.vDict es) }) := by
    simp [Story.get_node, hres]
  have hfn2 : entryFnOf es = some b := by simp [entryFnOf, hfn]
  unfold answersExclude at hans
  rcases hl : lookupA es ("answers") with _ | av
  · rw [hl] at hans
    simp [Story.step, hget, valFalsy, hne, getEntryFn_dict, hfn2, applyFnOpt,
          dictGetD_dict, hl, valContains_dict, hasKey_nil]
  · rw [hl] at hans
    rcases av with s | xs | b2 | aes
    · simp at hans
    · simp at hans
    · simp at hans
    · simp only [Bool.not_eq_true'] at hans
      simp [Story.step, hget, valFalsy, hne, getEntryFn_dict, hfn2, applyFnOpt,
            dictGetD_dict, hl, valContains_dict, hans]

/-- C10 witness: a node whose entry function deals 3 damage runs it even
when the supplied answer is invalid; the error result is returned and
only the subsystem state (and StoryMap) changed. -/
theorem step_entry_fn_witness :
    Story.step stC10 (some ("wait"))
      = .ok (errResult ("Неверный выбор."),
             { stC10 with storyMap := setAssoc stC10.storyMap stC10.path (.vDict esTrap),
                          mstate := runCmds [Cmd.modifyHpC (-3)] stC10.mstate }) :=
  step_entry_fn_runs_on_invalid_choice stC10 ("wait") esTrap [Cmd.modifyHpC (-3)]
    rfl rfl rfl rfl

/-- C6 counterexample: with its cursor naming a segment absent from its
dialogue tree, NPC.talk raises (KeyError propagates out of
NPC._get_node, which has no handler) instead of returning an error
mapping, so the claim is false at this input. -/
theorem npc_talk_resolution_raises_cex : NPC.talk npcEx mutEmpty none = .error () := rfl

/-- C6 (amended): a resolution failure while walking the NPC's own
dialogue tree (a segment of the NPC's cursor absent from the tree)
raises the underlying KeyError to the caller; only an invalid choice at
a resolved node yields the explicit error mapping "Invalid choice.". -/
theorem npc_talk_resolution_failure_raises (npc : NPC) (m : MutState) (c : Option String)
    (h : walkVal npc.dialogue npc.dialoguePath = .error .keyError) :
    NPC.talk npc m c = .error () := by
  simp [NPC.talk, h]

/-- C6 witness: a dangling two-segment cursor makes talk raise. -/
theorem npc_talk_resolution_failure_raises_witness :
    NPC.talk npcEx2 mutEmpty (some ("x")) = .error () :=
  npc_talk_resolution_failure_raises npcEx2 mutEmpty (some ("x")) rfl

/-- C7 counterexample: in the engine core a failing read of the saved
resource is not caught: load_state propagates the fault instead of
reporting it through the log, so the claim is false at this input. -/
theorem load_state_missing_resource_cex :
    Story.load_state (.error .malformed) stC1 = .error .malformed := rfl

/-- C7 (amended): in the engine core, keys absent from a loadable state
default to 0 for hp, empty mappings for inventory, achievements and
flags, and an empty sequence for path — but a missing or malformed
resource raises the underlying fault to the caller uncaught, with
nothing logged.  Only the UI variant catches every load failure and
reports it through its message channel, and there a missing key aborts
the load with the logged error instead of defaulting. -/
theorem load_state_failure_behavior :
    (∀ (e : LoadErr) (st : Story), Story.load_state (.error e) st = .error e) ∧
    (∀ st : Story, Story.load_state (.ok emptySaved) st
        = .ok { st with
                 mstate := { hp := 0, achievements := [], inventory := Inventory.init,
                             flags := [], logEntries := st.mstate.logEntries,
                             messages := st.mstate.messages },
                 path := [] }) ∧
    (∀ (e : LoadErr) (st : StorySE), StorySE.load_state (.error e) st = sePrintErr st) ∧
    (∀ (s : SESaved) (st : StorySE), s.hp = none →
       StorySE.load_state (.ok s) st = sePrintErr st) := by
  refine ⟨fun e st => rfl, fun st => rfl, fun e st => rfl, fun s st h => ?_⟩
  simp [StorySE.load_state, h]

/-- C7 witness: a missing resource raises in the core variant; a state
missing its hp key is reported (not defaulted) in the UI variant. -/
theorem load_state_failure_behavior_witness :
    Story.load_state (.error .fileNotFound) stC5 = .error .fileNotFound ∧
    StorySE.load_state (.ok seSavedNoHp) seEx = sePrintErr seEx :=
  ⟨load_state_failure_behavior.1 .fileNotFound stC5,
   load_state_failure_behavior.2.2.2 seSavedNoHp seEx rfl⟩

/-- C8: attempt returns true and runs on_success exactly once (then logs
the solved entry) when the choice index equals the stored correct index,
returns false and runs on_fail exactly once (then logs the failed entry)
otherwise; the puzzle itself is untouched, so attempts with alternating
indices keep producing alternating outcomes with no lockout. -/
theorem puzzle_attempt_contract (p : Puzzle) (m m2 : MutState) (i j : Int)
    (hi : i = p.answerIndex) (hj : j ≠ p.answerIndex) :
    Puzzle.attempt p m i
      = (true, log_log (runOpt p.onSuccess m)
          ("Puzzle solved: " ++ p.question) (some ("info"))) ∧
    Puzzle.attempt p m2 j
      = (false, log_log (runOpt p.onFail m2)
          ("Puzzle failed: " ++ p.question) (some ("info"))) ∧
    (Puzzle.attempt p (Puzzle.attempt p m2 j).2 i).1 = true ∧
    (Puzzle.attempt p (Puzzle.attempt p m i).2 j).1 = false := by
  refine ⟨?_, ?_, ?_, ?_⟩ <;> simp [Puzzle.attempt, hi, hj]

/-- C8 witness: the concrete riddle solves at index 0, fails at index 1,
and still solves right after a failed attempt. -/
theorem puzzle_attempt_contract_witness :
    (Puzzle.attempt pEx mutEmpty 0).1 = true ∧
    (Puzzle.attempt pEx mutEmpty 1).1 = false ∧
    (Puzzle.attempt pEx (Puzzle.attempt pEx mutEmpty 1).2 0).1 = true := by
  have h := puzzle_attempt_contract pEx mutEmpty mutEmpty 0 1 rfl (by decide)
  refine ⟨?_, ?_, h.2.2.1⟩
  · rw [h.1]
  · rw [h.2.1]

/-- C9 counterexample: add_item with a slot name outside the eleven
fixed ones creates a twelfth key, so the key set is not invariant over
arbitrary operation sequences. -/
theorem inventory_unknown_slot_cex :
    invKeys (runInvOps [InvOp.addOp ("Pocket") ("Gold") ("Coins") []] Inventory.init)
      ≠ inventorySlots := by decide

/-- An operation naming an existing slot key preserves the key list. -/
theorem invKeys_applyInvOp (inv : List (String × Option Item)) (op : InvOp)
    (h : InvOp.slotOf op ∈ invKeys inv) :
    invKeys (applyInvOp inv op) = invKeys inv := by
  cases op with
  | addOp s n d f => exact map_fst_setAssoc_mem inv s _ h
  | removeOp s => exact map_fst_setAssoc_mem inv s _ h

/-- Key preservation along a whole operation sequence. -/
theorem runInvOps_keys_aux (ops : List InvOp) :
    ∀ inv : List (String × Option Item), invKeys inv = inventorySlots →
      (∀ op ∈ ops, InvOp.slotOf op ∈ inventorySlots) →
      invKeys (runInvOps ops inv) = inventorySlots := by
  induction ops with
  | nil =>
    intro inv hi _
    simpa [runInvOps] using hi
  | cons op rest ih =>
    intro inv hi hall
    have h1 : InvOp.slotOf op ∈ invKeys inv := by
      rw [hi]
      exact hall op (List.mem_cons_self op rest)
    have h2 : invKeys (applyInvOp inv op) = inventorySlots := by
      rw [invKeys_applyInvOp inv op h1]
      exact hi
    have h3 : ∀ q ∈ rest, InvOp.slotOf q ∈ inventorySlots :=
      fun q hq => hall q (List.mem_cons_of_mem op hq)
    have h4 := ih (applyInvOp inv op) h2 h3
    simpa [runInvOps] using h4

/-- C9 (amended): provided every add_item and remove_item call names one
of the eleven fixed slots, the key set of the inventory mapping stays
exactly those eleven keys, in construction order — only slot contents
are replaced or cleared.  An operation naming an unknown slot instead
creates that key. -/
theorem inventory_keys_fixed (ops : List InvOp)
    (h : ∀ op ∈ ops, InvOp.slotOf op ∈ inventorySlots) :
    invKeys (runInvOps ops Inventory.init) = inventorySlots := by
  have hinit : invKeys Inventory.init = inventorySlots := rfl
  exact runInvOps_keys_aux ops Inventory.init hinit h

/-- C9 witness: adding and then removing a valid slot's item keeps the
fixed key set. -/
theorem inventory_keys_fixed_witness :
    invKeys (runInvOps
      [InvOp.addOp ("Head") ("Torch") ("Bright") [], InvOp.removeOp ("Head")]
      Inventory.init) = inventorySlots :=
  inventory_keys_fixed _ (by decide)

/-- The key list is untouched by a map over the values. -/
theorem keys_map_second {κ α β : Type} (l : List (κ × α)) (f : α → β) :
    (l.map (fun p => (p.1, f p.2))).map (fun p => p.1) = l.map (fun p => p.1) := by
  induction l with
  | nil => rfl
  | cons p rest ih => simp [ih]

/-- One aging pass runs exactly the expire callbacks of the effects
whose decremented duration is at or below zero, in iteration order. -/
theorem expire_foldl (es : List (String × Effect)) (m : MutState) :
    (es.map (fun p => (p.1, decEffect p.2))).foldl
        (fun m2 p => if p.2.duration ≤ 0 then runOpt p.2.expireFn m2 else m2) m
      = runCmds (expiredCmds es) m := by
  induction es generalizing m with
  | nil => rfl
  | cons p rest ih =>
    simp only [List.map_cons, List.foldl_cons]
    by_cases h : p.2.duration - 1 ≤ 0
    · have hd : (decEffect p.2).duration ≤ 0 := by simpa [decEffect] using h
      rw [if_pos hd, ih]
      have he : expiredCmds (p :: rest) = ((p.2.expireFn).getD []) ++ expiredCmds rest := by
        simp [expiredCmds, List.filterMap_cons, show p.2.duration ≤ 1 from by omega]
      rw [he, runCmds_append, runOpt_eq_getD]
      rfl
    · have hd : ¬ (decEffect p.2).duration ≤ 0 := by simpa [decEffect] using h
      rw [if_neg hd, ih]
      have he : expiredCmds (p :: rest) = expiredCmds rest := by
        simp [expiredCmds, List.filterMap_cons, show ¬ p.2.duration ≤ 1 from by omega]
      rw [he]

/-- Deleting keys other than the head's leaves the head in place. -/
theorem foldl_removeAssoc_past {κ α : Type} [DecidableEq κ] (ns : List κ) (p : κ × α)
    (l : List (κ × α)) (h : ∀ n ∈ ns, n ≠ p.1) :
    ns.foldl (fun acc n => removeAssoc acc n) (p :: l)
      = p :: ns.foldl (fun acc n => removeAssoc acc n) l := by
  induction ns generalizing l with
  | nil => rfl
  | cons n rest ih =>
    simp only [List.foldl_cons]
    have hn : p.1 ≠ n := Ne.symm (h n (List.mem_cons_self n rest))
    have hr : removeAssoc (p :: l) n = p :: removeAssoc l n := by
      simp [removeAssoc, hn]
    rw [hr]
    exact ih (removeAssoc l n) (fun x hx => h x (List.mem_cons_of_mem n hx))

/-- On a dict, deleting the keys selected by a predicate is filtering
them out. -/
theorem foldl_removeAssoc_filter {κ α : Type} [DecidableEq κ] (l : List (κ × α))
    (q : κ × α → Bool) (hnd : keysNodup l) :
    ((l.filter q).map (fun p => p.1)).foldl (fun acc n => removeAssoc acc n) l
      = l.filter (fun p => !(q p)) := by
  induction l with
  | nil => rfl
  | cons p rest ih =>
    have hnd1 : (p.1 :: rest.map (fun r => r.1)).Nodup := by
      simpa only [keysNodup, List.map_cons] using hnd
    have hcons := List.nodup_cons.mp hnd1
    have hnd2 : keysNodup rest := hcons.2
    by_cases hq : q p
    · rw [List.filter_cons_of_pos hq, List.map_cons, List.foldl_cons]
      have h1 : removeAssoc (p :: rest) p.1 = rest := by simp [removeAssoc]
      rw [h1, ih hnd2, List.filter_cons_of_neg (by simp [hq])]
    · have hall : ∀ n ∈ (rest.filter q).map (fun r => r.1), n ≠ p.1 := by
        intro n hn
        rcases List.mem_map.mp hn with ⟨r, hr, hrn⟩
        intro hc
        apply hcons.1
        exact List.mem_map.mpr ⟨r, (List.mem_filter.mp hr).1, hrn.trans hc⟩
      rw [List.filter_cons_of_neg (by simpa using hq),
          foldl_removeAssoc_past _ p rest hall, ih hnd2,
          List.filter_cons_of_pos (by simp [hq])]

/-- C5: one effect-aging pass decrements every active effect's remaining
duration by 1, runs the expire callback (when present) of every effect
thereby at or below zero, and removes exactly those effects; nothing
else touches the subsystem state, so apply callbacks never rerun.
Consequently a freshly registered effect has run its apply callback
exactly once; with duration 1 (or 0 or less) it is removed by the first
aging pass, its expire callback firing then, while with duration 2 or
more it survives the pass with its duration decremented. -/
theorem effect_lifecycle :
    (∀ st : Story, keysNodup st.effects →
      (Story.update_effects st).effects
        = (st.effects.map (fun p => (p.1, decEffect p.2))).filter
            (fun p => decide (0 < p.2.duration)) ∧
      (Story.update_effects st).mstate = runCmds (expiredCmds st.effects) st.mstate ∧
      (Story.update_effects st).path = st.path) ∧
    (∀ (st : Story) (e : Effect), st.effects = [] →
      (Story.apply_effect st e).effects = [(e.name, e)] ∧
      (Story.apply_effect st e).mstate = runCmds e.applyFn st.mstate ∧
      (e.duration ≤ 1 →
        (Story.update_effects (Story.apply_effect st e)).effects = [] ∧
        (Story.update_effects (Story.apply_effect st e)).mstate
          = runOpt e.expireFn (runCmds e.applyFn st.mstate)) ∧
      (2 ≤ e.duration →
        (Story.update_effects (Story.apply_effect st e)).effects = [(e.name, decEffect e)] ∧
        (Story.update_effects (Story.apply_effect st e)).mstate
          = runCmds e.applyFn st.mstate)) := by
  constructor
  · intro st hnd
    have hndd : keysNodup (st.effects.map (fun p => (p.1, decEffect p.2))) := by
      unfold keysNodup
      rw [keys_map_second]
      exact hnd
    have hu : (Story.update_effects st).effects
        = (((st.effects.map (fun p => (p.1, decEffect p.2))).filter
              (fun p => decide (p.2.duration ≤ 0))).map (fun p => p.1)).foldl
            (fun es n => removeAssoc es n)
            (st.effects.map (fun p => (p.1, decEffect p.2))) := rfl
    have hm : (Story.update_effects st).mstate
        = (st.effects.map (fun p => (p.1, decEffect p.2))).foldl
            (fun m2 p => if p.2.duration ≤ 0 then runOpt p.2.expireFn m2 else m2)
            st.mstate := rfl
    refine ⟨?_, ?_, rfl⟩
    · rw [hu, foldl_removeAssoc_filter _ _ hndd]
      apply List.filter_congr
      intro a _
      by_cases h : a.2.duration ≤ 0
      · simp [h]
      · simp [h]
        omega
    · rw [hm]
      exact expire_foldl st.effects st.mstate
  · intro st e heff
    have happ : Story.apply_effect st e
        = { st with effects := [(e.name, e)], mstate := runCmds e.applyFn st.mstate } := by
      simp [Story.apply_effect, heff, setAssoc]
    refine ⟨by rw [happ], by rw [happ], ?_, ?_⟩
    · intro h1
      rw [happ]
      constructor
      · simp [Story.update_effects, decEffect, removeAssoc,
              show e.duration - 1 ≤ 0 from by omega]
      · simp [Story.update_effects, decEffect,
              show e.duration - 1 ≤ 0 from by omega]
    · intro h2
      rw [happ]
      constructor
      · simp [Story.update_effects, decEffect, removeAssoc,
              show ¬ e.duration - 1 ≤ 0 from by omega]
      · simp [Story.update_effects, decEffect,
              show ¬ e.duration - 1 ≤ 0 from by omega]

/-- C5 witness: the poison effect of duration 1, freshly registered, is
gone after one aging pass, having run apply once and expire once. -/
theorem effect_lifecycle_witness :
    (Story.update_effects (Story.apply_effect stC5 effEx)).effects = [] ∧
    (Story.update_effects (Story.apply_effect stC5 effEx)).mstate
      = runOpt effEx.expireFn (runCmds effEx.applyFn stC5.mstate) :=
  (effect_lifecycle.2 stC5 effEx rfl).2.2.1 (by decide)

/-- The saved inventory rows carry a sub-sequence of the slot keys. -/
theorem savedItems_keys_sublist (inv : List (String × Option Item)) :
    List.Sublist ((savedItems inv).map (fun p => p.1)) (inv.map (fun p => p.1)) := by
  induction inv with
  | nil => exact List.Sublist.refl []
  | cons p rest ih =>
    rcases p with ⟨s, o⟩
    cases o with
    | some it => exact List.Sublist.cons₂ s ih
    | none => exact List.Sublist.cons s ih

/-- The saved inventory rows inherit key uniqueness. -/
theorem savedItems_keysNodup (inv : List (String × Option Item))
    (hnd : keysNodup inv) : keysNodup (savedItems inv) :=
  List.Nodup.sublist (savedItems_keys_sublist inv) hnd

/-- Looking a slot up among the saved rows is the (name, description)
view of that slot. -/
theorem lookupA_savedItems (inv : List (String × Option Item)) (k : String)
    (hnd : keysNodup inv) :
    lookupA (savedItems inv) k = (itemView inv k) := by
  induction inv with
  | nil => rfl
  | cons p rest ih =>
    have hnd1 : (p.1 :: rest.map (fun r => r.1)).Nodup := by
      simpa only [keysNodup, List.map_cons] using hnd
    have hcons := List.nodup_cons.mp hnd1
    rcases p with ⟨s, o⟩
    cases o with
    | some it =>
      have hs : savedItems ((s, some it) :: rest)
          = (s, it.name, it.description) :: savedItems rest := rfl
      rw [hs]
      by_cases hk : s = k
      · rw [lookupA_cons_eq _ _ k hk]
        unfold itemView
        rw [lookupA_cons_eq _ (s, some it) k hk]
      · rw [lookupA_cons_ne _ _ k hk, ih hcons.2]
        unfold itemView
        rw [lookupA_cons_ne _ (s, some it) k hk]
    | none =>
      have hs : savedItems ((s, none) :: rest) = savedItems rest := rfl
      rw [hs, ih hcons.2]
      by_cases hk : s = k
      · have hr : lookupA rest k = none :=
          lookupA_eq_none rest k (hk ▸ hcons.1)
        unfold itemView
        rw [hr, lookupA_cons_eq _ (s, none) k hk]
      · unfold itemView
        rw [lookupA_cons_ne _ (s, none) k hk]

/-- Re-adding saved rows over a base inventory: a saved slot gets its
saved name and description with a no-op equip callback; other slots
keep the base content. -/
theorem lookupA_foldl_add (pairs : List (String × String × String))
    (inv0 : List (String × Option Item)) (k : String) (hnd : keysNodup pairs) :
    lookupA (pairs.foldl
        (fun inv p => Inventory.add_item inv p.1 p.2.1 p.2.2 []) inv0) k
      = (match lookupA pairs k with
         | some nd => some (some { name := nd.1, description := nd.2, onEquip := [] })
         | none => lookupA inv0 k) := by
  induction pairs generalizing inv0 with
  | nil => rfl
  | cons p rest ih =>
    have hnd1 : (p.1 :: rest.map (fun r => r.1)).Nodup := by
      simpa only [keysNodup, List.map_cons] using hnd
    have hcons := List.nodup_cons.mp hnd1
    simp only [List.foldl_cons]
    rw [ih _ hcons.2]
    by_cases hk : p.1 = k
    · have hrest : lookupA rest k = none :=
        lookupA_eq_none rest k (by rw [← hk]; exact hcons.1)
      rw [hrest, lookupA_cons_eq rest p k hk]
      unfold Inventory.add_item
      rw [← hk]
      exact lookupA_setAssoc_self inv0 p.1 _
    · rw [lookupA_cons_ne rest p k hk]
      cases hr : lookupA rest k with
      | some nd => rfl
      | none =>
        unfold Inventory.add_item
        exact lookupA_setAssoc_ne inv0 p.1 k _ (fun hc => hk hc.symm)

/-- An all-empty inventory has no occupied slot view. -/
theorem itemView_none_list (xs : List String) (k : String) :
    itemView (xs.map (fun s => (s, (none : Option Item)))) k = none := by
  induction xs with
  | nil => rfl
  | cons s rest ih =>
    rw [List.map_cons]
    by_cases hk : s = k
    · unfold itemView
      rw [lookupA_cons_eq _ (s, none) k hk]
    · unfold itemView at ih ⊢
      rw [lookupA_cons_ne _ (s, none) k hk]
      exact ih

/-- An all-empty inventory holds no item record at any key. -/
theorem lookupA_none_list (xs : List String) (k : String) (it : Item) :
    lookupA (xs.map (fun s => (s, (none : Option Item)))) k ≠ some (some it) := by
  induction xs with
  | nil => simp [lookupA]
  | cons s rest ih =>
    rw [List.map_cons]
    by_cases hk : s = k
    · rw [lookupA_cons_eq _ (s, none) k hk]
      simp
    · rw [lookupA_cons_ne _ (s, none) k hk]
      exact ih

/-- Rebuilding a dict by assigning fresh, pairwise distinct keys in
order reproduces the assignments as written. -/
theorem foldl_setAssoc_fresh {κ α : Type} [DecidableEq κ] (l : List (κ × α)) :
    ∀ acc : List (κ × α), (∀ p ∈ l, p.1 ∉ acc.map (fun q => q.1)) → keysNodup l →
      l.foldl (fun a p => setAssoc a p.1 p.2) acc = acc ++ l := by
  induction l with
  | nil => intro acc _ _; simp
  | cons p rest ih =>
    intro acc hd hnd
    have hnd1 : (p.1 :: rest.map (fun r => r.1)).Nodup := by
      simpa only [keysNodup, List.map_cons] using hnd
    have hcons := List.nodup_cons.mp hnd1
    simp only [List.foldl_cons]
    have h1 : setAssoc acc p.1 p.2 = acc ++ [p] := by
      rw [setAssoc_of_not_mem acc p.1 p.2 (hd p (List.mem_cons_self p rest))]
    have hd2 : ∀ q ∈ rest, q.1 ∉ (acc ++ [p]).map (fun r => r.1) := by
      intro q hq
      rw [List.map_append]
      intro hmem
      rcases List.mem_append.mp hmem with hm | hm
      · exact hd q (List.mem_cons_of_mem p hq) hm
      · simp at hm
        exact hcons.1 (List.mem_map.mpr ⟨q, hq, hm⟩)
    rw [h1, ih (acc ++ [p]) hd2 hcons.2]
    simp

/-- C3: save_state followed by load_state from the same resource
restores hp, the achievements mapping, the flags mapping, the path
cursor, and the (name, description) pair of every occupied inventory
slot exactly, and every restored item record carries the no-op equip
callback. -/
theorem save_load_round_trip (st : Story)
    (hinv : keysNodup st.mstate.inventory) (hach : keysNodup st.mstate.achievements) :
    Story.load_state (.ok (Story.save_state st)) st
        = .ok (loadFromSaved (Story.save_state st) st) ∧
    (loadFromSaved (Story.save_state st) st).mstate.hp = st.mstate.hp ∧
    (loadFromSaved (Story.save_state st) st).mstate.achievements = st.mstate.achievements ∧
    (loadFromSaved (Story.save_state st) st).mstate.flags = st.mstate.flags ∧
    (loadFromSaved (Story.save_state st) st).path = st.path ∧
    (∀ slot, itemView (loadFromSaved (Story.save_state st) st).mstate.inventory slot
        = itemView st.mstate.inventory slot) ∧
    (∀ slot it,
       lookupA (loadFromSaved (Story.save_state st) st).mstate.inventory slot
         = some (some it) → it.onEquip = []) := by
  have hndS : keysNodup (savedItems st.mstate.inventory) := savedItems_keysNodup _ hinv
  have hlook : ∀ slot, lookupA (loadFromSaved (Story.save_state st) st).mstate.inventory slot
      = (match itemView st.mstate.inventory slot with
         | some nd => some (some { name := nd.1, description := nd.2, onEquip := [] })
         | none => lookupA Inventory.init slot) := by
    intro slot
    have hinvL : (loadFromSaved (Story.save_state st) st).mstate.inventory
        = (savedItems st.mstate.inventory).foldl
            (fun inv p => Inventory.add_item inv p.1 p.2.1 p.2.2 []) Inventory.init := rfl
    rw [hinvL, lookupA_foldl_add _ _ _ hndS, lookupA_savedItems _ _ hinv]
  refine ⟨rfl, rfl, ?_, rfl, rfl, ?_, ?_⟩
  · show (st.mstate.achievements).foldl (fun a p => setAssoc a p.1 p.2) []
        = st.mstate.achievements
    rw [foldl_setAssoc_fresh st.mstate.achievements [] (by simp) hach]
    simp
  · intro slot
    cases hv : itemView st.mstate.inventory slot with
    | some nd =>
      have h1 : lookupA (loadFromSaved (Story.save_state st) st).mstate.inventory slot
          = some (some { name := nd.1, description := nd.2, onEquip := [] }) := by
        rw [hlook slot, hv]
      have h2 : itemView (loadFromSaved (Story.save_state st) st).mstate.inventory slot
          = some (nd.1, nd.2) := by
        unfold itemView
        rw [h1]
      rw [h2]
    | none =>
      have h1 : lookupA (loadFromSaved (Story.save_state st) st).mstate.inventory slot
          = lookupA Inventory.init slot := by
        rw [hlook slot, hv]
      have h2 : itemView (loadFromSaved (Story.save_state st) st).mstate.inventory slot
          = itemView Inventory.init slot := by
        unfold itemView
        rw [h1]
      rw [h2]
      exact itemView_none_list inventorySlots slot
  · intro slot it hsl
    rw [hlook slot] at hsl
    cases hv : itemView st.mstate.inventory slot with
    | some nd =>
      rw [hv] at hsl
      simp only [Option.some.injEq] at hsl
      rw [← hsl]
    | none =>
      rw [hv] at hsl
      exact absurd hsl (lookupA_none_list inventorySlots slot it)

/-- C3 witness: the concrete accumulated Story round-trips, its "Head"
slot restored by name and description. -/
theorem save_load_round_trip_witness :
    (loadFromSaved (Story.save_state stC3) stC3).mstate.hp = stC3.mstate.hp ∧
    (loadFromSaved (Story.save_state stC3) stC3).mstate.achievements
      = stC3.mstate.achievements ∧
    (loadFromSaved (Story.save_state stC3) stC3).path = stC3.path ∧
    itemView (loadFromSaved (Story.save_state stC3) stC3).mstate.inventory ("Head")
      = itemView stC3.mstate.inventory ("Head") := by
  have h := save_load_round_trip stC3 (by unfold keysNodup; decide) (by unfold keysNodup; decide)
  exact ⟨h.2.1, h.2.2.1, h.2.2.2.2.1, h.2.2.2.2.2.1 ("Head")⟩
